import Mathlib

/-
Verification of the overrun command-construction pipeline (overrun.py).

The embedding models, faithful to the Python source:
  * the value model needed by the formatters (`Value`, with Python str / len /
    truthiness / iteration semantics),
  * `shlex.quote` and POSIX-mode `shlex.split` (CPython Lib/shlex.py),
  * `string.Formatter.parse` (CPython _string.formatter_parser) and
    `string.Formatter._vformat` / `get_field` (CPython Lib/string.py),
  * the repository's `_ShellQuoteFormatter.format_field`,
    `_SimpleFormatter.format_field`, `_EvalFormatter.get_field`,
    `format_cmd`, `cmd`, and `CmdObject.run` / `CmdObject.call`.

Failure (a Python exception anywhere in the construction pipeline) is
modelled by `Option`: `none` means the construction raised.

One deliberate restriction: replacement fields nested inside a format spec
(for example a template such as one whose spec part itself holds a brace
field) are not modelled; the template parser rejects a brace inside a spec,
where Python would recursively expand it.  No template appearing in the
repository, its tests, or the claims uses a nested spec.
-/

/-- Model of the Python values that flow through the formatters: `None`,
booleans, integers, strings and (possibly nested) lists. -/
inductive Value where
  | none : Value
  | bool : Bool → Value
  | int : Int → Value
  | str : String → Value
  | list : List Value → Value

mutual

/-- Python `repr` for the modelled values, used by `str` on a list.
String repr: Python prefers single quotes and switches to double quotes
when the string holds a single quote and no double quote; backslashes and
the chosen quote are escaped.  (Non-printable escapes are not modelled;
no claim depends on `repr`.) -/
def pyRepr : Value → String
  | Value.none => "None"
  | Value.bool true => "True"
  | Value.bool false => "False"
  | Value.int n => toString n
  | Value.str s =>
      let hasSingle := s.data.contains '\''
      let hasDouble := s.data.contains '"'
      let q : Char := if hasSingle && !hasDouble then '"' else '\''
      let body := s.data.foldr (fun c acc =>
        if c = '\\' then '\\' :: '\\' :: acc
        else if c = q then '\\' :: q :: acc
        else c :: acc) []
      String.mk (q :: body ++ [q])
  | Value.list l =>
      "[" ++ String.intercalate ", " (pyReprList l) ++ "]"

/-- The reprs of a list of values, element-wise (helper for `pyRepr`). -/
def pyReprList : List Value → List String
  | [] => []
  | v :: vs => pyRepr v :: pyReprList vs

end

/-- Python `str` for the modelled values (`str(True) = "True"`, `str` of a
list prints the reprs of its elements). -/
def pyStr : Value → String
  | Value.none => "None"
  | Value.bool true => "True"
  | Value.bool false => "False"
  | Value.int n => toString n
  | Value.str s => s
  | Value.list l => pyRepr (Value.list l)

/-- The coercion at the top of `_ShellQuoteFormatter.format_field`:
`if value is None: str_value = '' else: str_value = str(value)`. -/
def strCoerce : Value → String
  | Value.none => ""
  | v => pyStr v

/-- Python `len(value)`: defined for strings and lists, a `TypeError`
(modelled as `none`) otherwise. -/
def pyLen : Value → Option Nat
  | Value.str s => some s.length
  | Value.list l => some l.length
  | _ => Option.none

/-- Python truthiness of a value (used by `cmd`'s `if t` filter). -/
def pyTruthy : Value → Bool
  | Value.none => false
  | Value.bool b => b
  | Value.int n => n != 0
  | Value.str s => !s.isEmpty
  | Value.list l => !l.isEmpty

/-- Python iteration over a value (used by the shell-mode `l` directive):
a list yields its elements, a string yields its characters as one-character
strings, everything else is a `TypeError`. -/
def pyIter : Value → Option (List Value)
  | Value.list l => some l
  | Value.str s => some (s.data.map (fun c => Value.str (String.mk [c])))
  | _ => Option.none

/-- Fuelled decimal printer: pushes the digits of `n` onto `acc`.  The fuel
only serves termination; `natRepr` always supplies enough. -/
def natReprAux : Nat → Nat → List Char → List Char
  | 0, _, acc => acc
  | fuel + 1, n, acc =>
      let acc' := Nat.digitChar (n % 10) :: acc
      if n < 10 then acc' else natReprAux fuel (n / 10) acc'

/-- Decimal notation of a natural number as a character list (the notation
Python's f-string produces for the placeholder indices `{0}`, `{1}`, ...). -/
def natRepr (n : Nat) : List Char := natReprAux (n + 1) n []

/-- Numeric value of a decimal digit character. -/
def charVal (c : Char) : Nat := c.toNat - 48

/-- Python's `key.isdigit()`-then-`int(key)` conversion used by
`formatter_field_name_split`: an all-digit nonempty chunk becomes a number. -/
def decDigits (cs : List Char) : Option Nat :=
  if cs ≠ [] ∧ cs.all Char.isDigit then
    some (cs.foldl (fun a c => 10 * a + charVal c) 0)
  else Option.none

/-- Characters `shlex.quote` considers safe: the ASCII word class plus
at-sign, percent, plus, equals, colon, comma, dot, slash and hyphen
(CPython Lib/shlex.py, the complement of its unsafe pattern). -/
def shlexSafeChar (c : Char) : Bool :=
  c.isAlpha || c.isDigit || c = '_' || c = '@' || c = '%' || c = '+' ||
  c = '=' || c = ':' || c = ',' || c = '.' || c = '/' || c = '-'

/-- CPython `shlex.quote`: empty strings become `''`; safe strings are
returned unchanged; otherwise the string is wrapped in single quotes with
each embedded single quote written as the five characters of
a quote, a double-quoted quote, and a quote. -/
def shlexQuote (s : String) : String :=
  if s.isEmpty then "''"
  else if s.data.all shlexSafeChar then s
  else
    String.mk ('\'' :: (s.data.foldr (fun c acc =>
      if c = '\'' then '\'' :: '"' :: '\'' :: '"' :: '\'' :: acc
      else c :: acc) ['\'']))

/-- Whitespace recognised by `shlex` (its `whitespace` attribute). -/
def shlexWs (c : Char) : Bool := c = ' ' || c = '\t' || c = '\r' || c = '\n'

/-- States of the POSIX `shlex` lexer: outside quotes, inside single
quotes, inside double quotes. -/
inductive ShState where
  | norm : ShState
  | sq : ShState
  | dq : ShState

/-- The POSIX-mode `shlex` lexer with `whitespace_split=True`, as run by
`shlex.split` (CPython Lib/shlex.py `read_token`).  `acc` is the current
token reversed; `started` records whether a token is in progress (so that
an empty quoted string still yields an empty token).  `none` models the
`ValueError`s "No closing quotation" and "No escaped character". -/
def shGo : List Char → ShState → List Char → Bool → Option (List (List Char))
  | [], ShState.norm, acc, started =>
      if started then some [acc.reverse] else some []
  | [], ShState.sq, _, _ => Option.none
  | [], ShState.dq, _, _ => Option.none
  | c :: rest, ShState.norm, acc, started =>
      if shlexWs c then
        if started then (shGo rest ShState.norm [] false).map (acc.reverse :: ·)
        else shGo rest ShState.norm [] false
      else if c = '\'' then shGo rest ShState.sq acc true
      else if c = '"' then shGo rest ShState.dq acc true
      else if c = '\\' then
        match rest with
        | [] => Option.none
        | d :: r => shGo r ShState.norm (d :: acc) true
      else shGo rest ShState.norm (c :: acc) true
  | c :: rest, ShState.sq, acc, started =>
      if c = '\'' then shGo rest ShState.norm acc started
      else shGo rest ShState.sq (c :: acc) started
  | c :: rest, ShState.dq, acc, started =>
      if c = '"' then shGo rest ShState.norm acc started
      else if c = '\\' then
        match rest with
        | [] => Option.none
        | d :: r =>
            if d = '"' || d = '\\' then shGo r ShState.dq (d :: acc) started
            else shGo r ShState.dq (d :: '\\' :: acc) started
      else shGo rest ShState.dq (c :: acc) started

/-- CPython `shlex.split` in POSIX mode, on character lists. -/
def shlexSplitCh (cs : List Char) : Option (List (List Char)) :=
  shGo cs ShState.norm [] false

/-- CPython `shlex.split` in POSIX mode. -/
def shlexSplit (s : String) : Option (List String) :=
  (shlexSplitCh s.data).map (List.map String.mk)

/-- One replacement field of a template, as produced by
`string.Formatter.parse`: the field name text, an optional conversion
character (after an exclamation mark) and the format spec text. -/
structure Fld where
  name : List Char
  conv : Option Char
  spec : List Char
deriving DecidableEq, Repr

/-- One parse item: a literal chunk (with doubled braces already collapsed,
as CPython's formatter parser does) followed by an optional field. -/
structure Item where
  lit : List Char
  field : Option Fld
deriving DecidableEq, Repr

/-- States of the template parser: in literal text (accumulating it), in a
field name (inside or outside an index bracket), just after the conversion
marker, after the conversion character, or in the format spec. -/
inductive PState where
  | lit : List Char → PState
  | name : List Char → List Char → Bool → PState
  | conv1 : List Char → List Char → PState
  | conv2 : List Char → List Char → Char → PState
  | spec : List Char → List Char → Option Char → List Char → PState

/-- CPython's format-string parser (`_string.formatter_parser`, the
iterator behind `string.Formatter.parse`): literal text with `{{` and `}}`
collapsed to single braces, then fields of the shape name, optional
`!`-conversion, optional `:`-spec.  A lone brace, an unterminated field, a
brace inside a field name and a missing conversion character are parse
errors (`none`).  Restriction: a brace inside a format spec (a nested
replacement field) is rejected rather than expanded. -/
def pGo : List Char → PState → Option (List Item)
  | [], PState.lit acc => some [⟨acc.reverse, Option.none⟩]
  | [], _ => Option.none
  | '{' :: '{' :: rest, PState.lit acc => pGo rest (PState.lit ('{' :: acc))
  | '}' :: '}' :: rest, PState.lit acc => pGo rest (PState.lit ('}' :: acc))
  | '{' :: rest, PState.lit acc => pGo rest (PState.name acc [] false)
  | '}' :: _, PState.lit _ => Option.none
  | c :: rest, PState.lit acc => pGo rest (PState.lit (c :: acc))
  | c :: rest, PState.name la na br =>
      if c = '{' then Option.none
      else if br then
        if c = ']' then pGo rest (PState.name la (c :: na) false)
        else pGo rest (PState.name la (c :: na) true)
      else if c = '[' then pGo rest (PState.name la (c :: na) true)
      else if c = '}' then
        (pGo rest (PState.lit [])).map
          (⟨la.reverse, some ⟨na.reverse, Option.none, []⟩⟩ :: ·)
      else if c = '!' then pGo rest (PState.conv1 la na)
      else if c = ':' then pGo rest (PState.spec la na Option.none [])
      else pGo rest (PState.name la (c :: na) br)
  | c :: rest, PState.conv1 la na => pGo rest (PState.conv2 la na c)
  | c :: rest, PState.conv2 la na cv =>
      if c = ':' then pGo rest (PState.spec la na (some cv) [])
      else if c = '}' then
        (pGo rest (PState.lit [])).map
          (⟨la.reverse, some ⟨na.reverse, some cv, []⟩⟩ :: ·)
      else Option.none
  | c :: rest, PState.spec la na cv sa =>
      if c = '}' then
        (pGo rest (PState.lit [])).map
          (⟨la.reverse, some ⟨na.reverse, cv, sa.reverse⟩⟩ :: ·)
      else if c = '{' then Option.none
      else pGo rest (PState.spec la na cv (c :: sa))

/-- Parse a template into items (`string.Formatter.parse`). -/
def parseFmt (cs : List Char) : Option (List Item) := pGo cs (PState.lit [])

/-- A resolved first component or index key of a field name: an all-digit
chunk becomes a numeric key, anything else a string key
(`_string.formatter_field_name_split`). -/
inductive FKey where
  | num : Nat → FKey
  | name : List Char → FKey
deriving DecidableEq

/-- Key conversion: `key.isdigit()` then `int(key)`, else the string. -/
def mkKey (cs : List Char) : FKey :=
  match decDigits cs with
  | some n => FKey.num n
  | Option.none => FKey.name cs

/-- A trailing accessor chunk of a field name: an attribute access
(`.attr`) or a subscript (`[key]`). -/
inductive Chunk where
  | attr : List Char → Chunk
  | idx : FKey → Chunk
deriving DecidableEq

/-- States of the accessor-chunk scanner: expecting a dot or bracket,
inside an attribute name, or inside a bracketed index. -/
inductive FnState where
  | delim : FnState
  | attr : List Char → FnState
  | idx : List Char → FnState

/-- Scanner for the accessor chunks of a field name
(`_string.formatter_field_name_split`): a dot starts an attribute (which
must be nonempty), a bracket starts an index closed by the matching
bracket, and only a dot or bracket may follow a closed index. -/
def fnGo : List Char → FnState → Option (List Chunk)
  | [], FnState.delim => some []
  | [], FnState.attr acc =>
      if acc.isEmpty then Option.none else some [Chunk.attr acc.reverse]
  | [], FnState.idx _ => Option.none
  | c :: rest, FnState.delim =>
      if c = '.' then fnGo rest (FnState.attr [])
      else if c = '[' then fnGo rest (FnState.idx [])
      else Option.none
  | c :: rest, FnState.attr acc =>
      if c = '.' then
        if acc.isEmpty then Option.none
        else (fnGo rest (FnState.attr [])).map (Chunk.attr acc.reverse :: ·)
      else if c = '[' then
        if acc.isEmpty then Option.none
        else (fnGo rest (FnState.idx [])).map (Chunk.attr acc.reverse :: ·)
      else fnGo rest (FnState.attr (c :: acc))
  | c :: rest, FnState.idx acc =>
      if c = ']' then (fnGo rest FnState.delim).map (Chunk.idx (mkKey acc.reverse) :: ·)
      else fnGo rest (FnState.idx (c :: acc))

/-- Split a field name into its first component and accessor chunks
(`_string.formatter_field_name_split`). -/
def fieldNameSplit (cs : List Char) : Option (FKey × List Chunk) :=
  let first := cs.takeWhile (fun c => c ≠ '.' ∧ c ≠ '[')
  let rest := cs.dropWhile (fun c => c ≠ '.' ∧ c ≠ '[')
  (fnGo rest FnState.delim).map (fun chunks => (mkKey first, chunks))

/-- `string.Formatter.get_value`: a numeric key indexes the positional
arguments, a string key the keyword arguments. -/
def getValue (pos : List Value) (kw : List (String × Value)) : FKey → Option Value
  | FKey.num n => pos.get? n
  | FKey.name s => kw.lookup (String.mk s)

/-- Python subscription `obj[key]` on the modelled values: list and string
indexing by a number; anything else is a `TypeError` / `KeyError`. -/
def pyGetItem (obj : Value) : FKey → Option Value
  | FKey.num n =>
      match obj with
      | Value.list l => l.get? n
      | Value.str s => (s.data.get? n).map (fun c => Value.str (String.mk [c]))
      | _ => Option.none
  | FKey.name _ => Option.none

/-- Apply one accessor chunk.  Attribute access always fails on the
modelled values (they have no attributes). -/
def pyChunk (obj : Value) : Chunk → Option Value
  | Chunk.attr _ => Option.none
  | Chunk.idx k => pyGetItem obj k

/-- `string.Formatter.get_field`: split the field name, fetch the first
object via `get_value`, then apply the accessor chunks. -/
def getFieldResolve (pos : List Value) (kw : List (String × Value))
    (name : List Char) : Option Value := do
  let (k, chunks) ← fieldNameSplit name
  let v0 ← getValue pos kw k
  chunks.foldlM pyChunk v0

/-- The automatic-field-numbering bookkeeping of
`string.Formatter._vformat`: an empty field name takes the next automatic
index (`none` models `auto_arg_index = False`, the disabled state, in
which an empty name is an error); an all-digit name disables automatic
numbering and is an error if automatic numbering was already used. -/
def resolveAuto (name : List Char) (auto : Option Nat) :
    Option (List Char × Option Nat) :=
  if name.isEmpty then
    match auto with
    | Option.none => Option.none
    | some i => some (natRepr i, some (i + 1))
  else if name.all Char.isDigit then
    match auto with
    | some (_ + 1) => Option.none
    | _ => some (name, Option.none)
  else some (name, auto)

/-- `string.Formatter.convert_field`: no conversion, `!s` (str) and `!r`
(repr); the `!a` (ascii) conversion is not modelled and other characters
are a `ValueError`. -/
def convertField (cv : Option Char) (v : Value) : Option Value :=
  match cv with
  | Option.none => some v
  | some c =>
      if c = 's' then some (Value.str (pyStr v))
      else if c = 'r' then some (Value.str (pyRepr v))
      else Option.none

/-- The repository's `_ShellQuoteFormatter.format_field`: `None` coerces
to empty text; with `shell=True` the `r` spec inserts the text raw, the
`l` spec joins the shell-quoted `str` of each element of the value with
single spaces, and any other spec shell-quotes the text; with
`shell=False` the text is returned unchanged whatever the spec. -/
def sqFormatField (shell : Bool) (v : Value) (spec : List Char) :
    Option String :=
  let strValue := strCoerce v
  if shell then
    if spec = ['r'] then some strValue
    else if spec = ['l'] then
      (pyIter v).map (fun elems =>
        String.intercalate " " (elems.map (fun e => shlexQuote (pyStr e))))
    else some (shlexQuote strValue)
  else some strValue

/-- The repository's `_SimpleFormatter.format_field`: record the value at
the next index and emit an indexed placeholder; the `l` spec emits one
subscripted placeholder per element of the value (failing like `len` on a
value with no length), other specs emit an index-colon-spec placeholder. -/
def simpleFormatField (args : List Value) (v : Value) (spec : List Char) :
    Option (List Char × List Value) :=
  let index := args.length
  let args' := args ++ [v]
  if spec = ['l'] then
    (pyLen v).map (fun n =>
      (List.intercalate [' ']
        ((List.range n).map (fun i =>
          '{' :: natRepr index ++ '[' :: natRepr i ++ [']', '}'])), args'))
  else some ('{' :: natRepr index ++ ':' :: spec ++ ['}'], args')

/-- State threaded through the first (recording) pass: the recorded
values, the automatic-numbering counter, and the number of evaluator
invocations so far (the tick, which orders side effects). -/
structure St1 where
  args : List Value
  auto : Option Nat
  tick : Nat

/-- The two input modes of the Field Recorder pass: `eval` models
`_EvalFormatter` (the field name is handed, whole, to the caller-scope
evaluator; the tick argument makes each invocation distinct), `manual`
models `_SimpleFormatter` with explicit positional and keyword values. -/
inductive P1Mode where
  | eval : (Nat → String → Value) → P1Mode
  | manual : List Value → List (String × Value) → P1Mode

/-- `get_field` of the first pass: `_EvalFormatter.get_field` evaluates
the field name text (consuming one tick), `_SimpleFormatter` inherits
`string.Formatter.get_field`. -/
def getField1 (m : P1Mode) (tick : Nat) (name : List Char) :
    Option (Value × Nat) :=
  match m with
  | P1Mode.eval ev => some (ev tick (String.mk name), tick + 1)
  | P1Mode.manual pos kw => (getFieldResolve pos kw name).map (fun v => (v, tick))

/-- The item loop of `string.Formatter._vformat` for the first pass:
literal text is appended, each field goes through automatic-numbering
resolution, `get_field`, `convert_field` and
`_SimpleFormatter.format_field`. -/
def renderItems1 (m : P1Mode) : List Item → List Char → St1 →
    Option (List Char × St1)
  | [], out, st => some (out, st)
  | it :: its, out, st =>
      match it.field with
      | Option.none => renderItems1 m its (out ++ it.lit) st
      | some f => do
          let (name, auto') ← resolveAuto f.name st.auto
          let (v, tick') ← getField1 m st.tick name
          let v' ← convertField f.conv v
          let (ph, args') ← simpleFormatField st.args v' f.spec
          renderItems1 m its (out ++ it.lit ++ ph) ⟨args', auto', tick'⟩

/-- The Field Recorder pass (`formatter.format(command, ...)` in
`format_cmd`): parse the template and run the recording item loop. -/
def pass1 (m : P1Mode) (command : String) : Option (List Char × St1) :=
  (parseFmt command.data).bind (fun its => renderItems1 m its [] ⟨[], some 0, 0⟩)

/-- The item loop of `string.Formatter._vformat` for the second pass
(`_ShellQuoteFormatter`), over the recorded values as positional
arguments. -/
def renderItems2 (shell : Bool) (args : List Value) : List Item →
    List Char → Option Nat → Option (List Char × Option Nat)
  | [], out, auto => some (out, auto)
  | it :: its, out, auto =>
      match it.field with
      | Option.none => renderItems2 shell args its (out ++ it.lit) auto
      | some f => do
          let (name, auto') ← resolveAuto f.name auto
          let v ← getFieldResolve args [] name
          let v' ← convertField f.conv v
          let s ← sqFormatField shell v' f.spec
          renderItems2 shell args its (out ++ it.lit ++ s.data) auto'

/-- One `quote_formatter.format(text, *formatter.args)` call of the second
pass. -/
def vformat2 (shell : Bool) (args : List Value) (cs : List Char) :
    Option (List Char) :=
  (parseFmt cs).bind (fun its =>
    (renderItems2 shell args its [] (some 0)).map Prod.fst)

/-- The final command representation held by a `CmdObject`: a single shell
string, or an argument vector. -/
inductive Cmd where
  | sh : String → Cmd
  | vec : List String → Cmd
deriving DecidableEq

/-- The repository's `format_cmd`, parameterised by the first-pass mode:
run the recording pass; in shell mode re-format the whole indexed result
through `_ShellQuoteFormatter(shell=True)`; otherwise `shlex.split` the
indexed result and re-format each token through
`_ShellQuoteFormatter(shell=False)`. -/
def formatCmdWith (m : P1Mode) (command : String) (shell : Bool) :
    Option Cmd := do
  let (first, st) ← pass1 m command
  if shell then
    let out ← vformat2 true st.args first
    pure (Cmd.sh (String.mk out))
  else
    let toks ← shlexSplitCh first
    let outs ← toks.mapM (vformat2 false st.args)
    pure (Cmd.vec (outs.map String.mk))

/-- The repository's `format_cmd` proper (manual mode, with positional and
keyword values). -/
def format_cmd (command : String) (args : List Value)
    (kwargs : List (String × Value)) (shell : Bool) : Option Cmd :=
  formatCmdWith (P1Mode.manual args kwargs) command shell

/-- The argument joining at the top of `cmd`:
`' '.join(str(t) for t in command if t)`. -/
def joinCmd (parts : List Value) : String :=
  String.intercalate " " ((parts.filter pyTruthy).map pyStr)

/-- The repository's `cmd`: join the truthy parts with single spaces, then
run the pipeline with the caller-scope evaluator. -/
def cmd (parts : List Value) (ev : Nat → String → Value) (shell : Bool) :
    Option Cmd :=
  formatCmdWith (P1Mode.eval ev) (joinCmd parts) shell

/-- Outcome of one execution: a completed process with its exit code, or
the `subprocess.CalledProcessError` raised by a checked run (the spec's
`NonZeroExitError`). -/
inductive RunResult where
  | ok : Int → RunResult
  | calledProcessError : Int → RunResult
deriving DecidableEq

/-- `subprocess.run(..., check=check)` as observed through the exit code:
with `check` set, a nonzero exit code raises `CalledProcessError`
(modelled from the documented contract of the external execution
collaborator). -/
def subprocessRun (returncode : Int) (check : Bool) : RunResult :=
  if check ∧ returncode ≠ 0 then RunResult.calledProcessError returncode
  else RunResult.ok returncode

/-- `CmdObject.run`: forwards to `subprocess.run` without setting `check`
(the optional argument models a `check=` keyword passed through
`**kwargs`; `run` itself supplies none, so `subprocess.run`'s default
`check=False` applies). -/
def CmdObject.run (returncode : Int)
    (check : Option Bool := Option.none) : RunResult :=
  subprocessRun returncode (check.getD false)

/-- `CmdObject.call`: forwards to `subprocess.run` with `check=check`,
defaulting to `True`. -/
def CmdObject.call (returncode : Int) (check : Bool := true) : RunResult :=
  subprocessRun returncode check

/-- Modelled from the spec: the claimed vector-mode rendering of section
4.3 step 4 — first fully substitute the command string with escaping
deferred, then split it into POSIX shell words, then escape each resulting
word.  This is the claim-side definition compared against `format_cmd`. -/
def specVectorRender (command : String) (args : List Value)
    (kwargs : List (String × Value)) : Option (List String) := do
  let (first, st) ← pass1 (P1Mode.manual args kwargs) command
  let substituted ← vformat2 false st.args first
  let words ← shlexSplitCh substituted
  pure (words.map (fun w => shlexQuote (String.mk w)))

/-- Predicate: the text holds no brace characters (so the format parser
reads it as pure literal text, and no doubled-brace escapes occur). -/
def braceFree (cs : List Char) : Bool :=
  cs.all (fun c => c ≠ '{' && c ≠ '}')

/-- Characters the POSIX lexer treats as ordinary: not whitespace, not a
quote, not a backslash.  A word of such characters is one token. -/
def plainCh (c : Char) : Bool :=
  !shlexWs c && c ≠ '\'' && c ≠ '"' && c ≠ '\\'

/-- The fields of a parsed template, in template order. -/
def itemFields (its : List Item) : List Fld := its.filterMap Item.field

/-- The values produced by invoking the Expression Evaluator once per
field occurrence, left to right, with consecutive ticks starting at `t`
(so the trace records both the order and the number of invocations). -/
def evalTrace (ev : Nat → String → Value) : Nat → List Fld → List Value
  | _, [] => []
  | t, f :: fs => ev t (String.mk f.name) :: evalTrace ev (t + 1) fs

theorem strMk_data (s : String) : (⟨s.data⟩ : String) = s := by cases s; rfl

theorem natReprAux_acc (fuel : Nat) : ∀ (n : Nat) (acc : List Char),
    natReprAux fuel n acc = natReprAux fuel n [] ++ acc := by
  induction fuel with
  | zero => intro n acc; simp [natReprAux]
  | succ f ih =>
    intro n acc
    simp only [natReprAux]
    by_cases h : n < 10
    · simp [h]
    · simp only [h, if_false]
      rw [ih (n / 10) (Nat.digitChar (n % 10) :: acc),
          ih (n / 10) [Nat.digitChar (n % 10)]]
      simp

theorem natReprAux_fuel : ∀ (n f1 f2 : Nat), n < f1 → n < f2 →
    natReprAux f1 n [] = natReprAux f2 n [] := by
  intro n
  induction n using Nat.strong_induction_on with
  | _ n ih =>
    intro f1 f2 h1 h2
    match f1, f2 with
    | g1 + 1, g2 + 1 =>
      simp only [natReprAux]
      by_cases h : n < 10
      · simp [h]
      · simp only [h, if_false]
        rw [natReprAux_acc g1, natReprAux_acc g2,
            ih (n / 10) (Nat.div_lt_self (by omega) (by omega)) g1 g2
              (by omega) (by omega)]

theorem natRepr_lt10 (n : Nat) (h : n < 10) :
    natRepr n = [Nat.digitChar n] := by
  simp [natRepr, natReprAux, Nat.mod_eq_of_lt h, h]

theorem natRepr_step (n : Nat) (h : 10 ≤ n) :
    natRepr n = natRepr (n / 10) ++ [Nat.digitChar (n % 10)] := by
  have h10 : ¬n < 10 := by omega
  simp only [natRepr, natReprAux, h10, if_false]
  rw [natReprAux_acc n]
  congr 1
  exact natReprAux_fuel (n / 10) n (n / 10 + 1)
    (Nat.div_lt_self (by omega) (by omega)) (by omega)

theorem digitChar_isDigit (d : Nat) (h : d < 10) :
    (Nat.digitChar d).isDigit = true := by
  interval_cases d <;> decide

theorem charVal_digitChar (d : Nat) (h : d < 10) :
    charVal (Nat.digitChar d) = d := by
  interval_cases d <;> decide

theorem natRepr_digits : ∀ n : Nat, ∀ c ∈ natRepr n, c.isDigit = true := by
  intro n
  induction n using Nat.strong_induction_on with
  | _ n ih =>
    by_cases h : n < 10
    · rw [natRepr_lt10 n h]
      intro c hc
      simp at hc
      subst hc
      exact digitChar_isDigit n h
    · rw [natRepr_step n (by omega)]
      intro c hc
      rcases List.mem_append.1 hc with h1 | h2
      · exact ih (n / 10) (Nat.div_lt_self (by omega) (by omega)) c h1
      · simp at h2
        subst h2
        exact digitChar_isDigit (n % 10) (Nat.mod_lt _ (by omega))

theorem natRepr_ne_nil (n : Nat) : natRepr n ≠ [] := by
  by_cases h : n < 10
  · rw [natRepr_lt10 n h]; simp
  · rw [natRepr_step n (by omega)]; simp

theorem natRepr_foldl : ∀ n : Nat,
    (natRepr n).foldl (fun a c => 10 * a + charVal c) 0 = n := by
  intro n
  induction n using Nat.strong_induction_on with
  | _ n ih =>
    by_cases h : n < 10
    · rw [natRepr_lt10 n h]
      simp [charVal_digitChar n h]
    · rw [natRepr_step n (by omega), List.foldl_append]
      rw [ih (n / 10) (Nat.div_lt_self (by omega) (by omega))]
      simp [charVal_digitChar (n % 10) (Nat.mod_lt _ (by omega))]
      omega

theorem decDigits_natRepr (n : Nat) : decDigits (natRepr n) = some n := by
  have hd : (natRepr n).all Char.isDigit = true :=
    List.all_eq_true.2 (fun c hc => natRepr_digits n c hc)
  simp [decDigits, natRepr_ne_nil n, hd, natRepr_foldl n]

theorem isDigit_ne (c d : Char) (hc : c.isDigit = true)
    (hd : d.isDigit = false) : c ≠ d := by
  intro e; subst e; rw [hc] at hd; cases hd

theorem pGo_lit_other (c : Char) (rest acc : List Char)
    (h1 : c ≠ '{') (h2 : c ≠ '}') :
    pGo (c :: rest) (PState.lit acc) = pGo rest (PState.lit (c :: acc)) := by
  rw [pGo.eq_def]
  split <;> simp_all

theorem pGo_name_push (c : Char) (rest la na : List Char)
    (h1 : c ≠ '{') (h2 : c ≠ ']') :
    pGo (c :: rest) (PState.name la na true) =
      pGo rest (PState.name la (c :: na) true) := by
  rw [pGo.eq_def]
  split <;> simp_all

theorem pGo_lit_braceFree : ∀ cs acc, braceFree cs = true →
    pGo cs (PState.lit acc) = some [⟨acc.reverse ++ cs, Option.none⟩] := by
  intro cs
  induction cs with
  | nil => intro acc _; simp [pGo]
  | cons c rest ih =>
    intro acc h
    simp only [braceFree, List.all_cons, Bool.and_eq_true,
      decide_eq_true_eq] at h
    obtain ⟨⟨hc1, hc2⟩, hrest⟩ := h
    rw [pGo_lit_other c rest acc hc1 hc2,
      ih (c :: acc) (by simpa [braceFree] using hrest)]
    simp

theorem parseFmt_braceFree (cs : List Char) (h : braceFree cs = true) :
    parseFmt cs = some [⟨cs, Option.none⟩] := by
  rw [parseFmt, pGo_lit_braceFree cs [] h]
  simp

theorem vformat2_braceFree (shell : Bool) (args : List Value)
    (cs : List Char) (h : braceFree cs = true) :
    vformat2 shell args cs = some cs := by
  rw [vformat2, parseFmt_braceFree cs h]
  simp [renderItems2]

theorem pass1_braceFree (m : P1Mode) (s : String)
    (h : braceFree s.data = true) :
    pass1 m s = some (s.data, ⟨[], some 0, 0⟩) := by
  rw [pass1, parseFmt_braceFree s.data h]
  simp [renderItems1]

theorem shGo_norm_plain (c : Char) (rest acc : List Char) (started : Bool)
    (h : plainCh c = true) :
    shGo (c :: rest) ShState.norm acc started =
      shGo rest ShState.norm (c :: acc) true := by
  simp only [plainCh, Bool.and_eq_true, Bool.not_eq_true',
    decide_eq_true_eq] at h
  obtain ⟨⟨⟨hw, h1⟩, h2⟩, h3⟩ := h
  rw [shGo.eq_def]
  split <;> simp_all

theorem shGo_plain_prefix : ∀ (w : List Char) (rest acc : List Char)
    (started : Bool), (∀ c ∈ w, plainCh c = true) →
    shGo (w ++ rest) ShState.norm acc started =
      shGo rest ShState.norm (w.reverse ++ acc) (started || !w.isEmpty) := by
  intro w
  induction w with
  | nil => intro rest acc started _; simp
  | cons c w ih =>
    intro rest acc started h
    rw [List.cons_append, shGo_norm_plain c (w ++ rest) acc started
      (h c (by simp)), ih rest (c :: acc) true (fun d hd => h d (by simp [hd]))]
    simp

theorem shGo_ws (c : Char) (rest acc : List Char)
    (h : shlexWs c = true) :
    (shGo (c :: rest) ShState.norm acc true =
      (shGo rest ShState.norm [] false).map (acc.reverse :: ·)) ∧
    (shGo (c :: rest) ShState.norm acc false =
      shGo rest ShState.norm [] false) := by
  constructor <;> (rw [shGo.eq_def]; split <;> simp_all)

theorem shlex_plain_words : ∀ ws : List (List Char),
    (∀ w ∈ ws, w ≠ [] ∧ ∀ c ∈ w, plainCh c = true) →
    shlexSplitCh (List.intercalate [' '] ws) = some ws := by
  intro ws
  induction ws with
  | nil => intro _; simp [List.intercalate, shlexSplitCh, shGo]
  | cons w rest ih =>
    intro h
    obtain ⟨hw, hplain⟩ := h w (by simp)
    have hw' : w.isEmpty = false := by
      cases w with
      | nil => exact absurd rfl hw
      | cons a b => rfl
    cases rest with
    | nil =>
      have h1 : List.intercalate [' '] [w] = w := by
        simp [List.intercalate, List.intersperse]
      have hh := shGo_plain_prefix w [] [] false hplain
      rw [List.append_nil] at hh
      rw [h1, shlexSplitCh, hh]
      simp [shGo, hw']
    | cons w2 rest2 =>
      have hstep : List.intercalate [' '] (w :: w2 :: rest2) =
          w ++ ' ' :: List.intercalate [' '] (w2 :: rest2) := by
        simp [List.intercalate, List.intersperse]
      have hh := shGo_plain_prefix w
        (' ' :: List.intercalate [' '] (w2 :: rest2)) [] false hplain
      rw [shlexSplitCh, hstep, hh]
      simp only [List.append_nil, Bool.false_or, hw', Bool.not_false]
      rw [(shGo_ws ' ' (List.intercalate [' '] (w2 :: rest2))
        w.reverse rfl).1]
      rw [show shGo (List.intercalate [' '] (w2 :: rest2))
          ShState.norm [] false =
          shlexSplitCh (List.intercalate [' '] (w2 :: rest2)) from rfl]
      rw [ih (fun x hx => h x (by simp [hx]))]
      simp


theorem shGo_sq_push (a : Char) (rest acc : List Char) (st : Bool)
    (h : a ≠ '\'') :
    shGo (a :: rest) ShState.sq acc st =
      shGo rest ShState.sq (a :: acc) st := by
  rw [shGo.eq_def]
  split <;> simp_all

theorem shGo_dq_push (a : Char) (rest acc : List Char) (st : Bool)
    (h1 : a ≠ '"') (h2 : a ≠ '\\') :
    shGo (a :: rest) ShState.dq acc st =
      shGo rest ShState.dq (a :: acc) st := by
  rw [shGo.eq_def]
  split <;> simp_all


theorem shGo_norm_sq (rest acc : List Char) (st : Bool) :
    shGo ('\'' :: rest) ShState.norm acc st =
      shGo rest ShState.sq acc true := by
  rw [shGo.eq_def]
  split
  all_goals try (simp_all [shlexWs]; done)
  all_goals
    (rename_i heq1 heq2
     injection heq1 with he1 he2
     subst he1
     subst he2
     simp [shlexWs])

theorem shGo_norm_dq (rest acc : List Char) (st : Bool) :
    shGo ('"' :: rest) ShState.norm acc st =
      shGo rest ShState.dq acc true := by
  rw [shGo.eq_def]
  split
  all_goals try (simp_all [shlexWs]; done)
  all_goals
    (rename_i heq1 heq2
     injection heq1 with he1 he2
     subst he1
     subst he2
     simp [shlexWs])

theorem shGo_norm_bs_nil (acc : List Char) (st : Bool) :
    shGo ['\\'] ShState.norm acc st = Option.none := by
  rw [shGo.eq_def]
  split
  all_goals try (simp_all [shlexWs]; done)
  all_goals
    (rename_i heq1 heq2
     injection heq1 with he1 he2
     subst he1
     subst he2
     simp [shlexWs])

theorem shGo_norm_bs (d : Char) (r acc : List Char) (st : Bool) :
    shGo ('\\' :: d :: r) ShState.norm acc st =
      shGo r ShState.norm (d :: acc) true := by
  rw [shGo.eq_def]
  split
  all_goals try (simp_all [shlexWs]; done)
  all_goals
    (rename_i heq1 heq2
     injection heq1 with he1 he2
     subst he1
     subst he2
     simp [shlexWs])

theorem shGo_sq_close (rest acc : List Char) (st : Bool) :
    shGo ('\'' :: rest) ShState.sq acc st =
      shGo rest ShState.norm acc st := by
  rw [shGo.eq_def]
  split
  all_goals try (simp_all [shlexWs]; done)
  all_goals
    (rename_i heq1 heq2
     injection heq1 with he1 he2
     subst he1
     subst he2
     simp [shlexWs])

theorem shGo_dq_close (rest acc : List Char) (st : Bool) :
    shGo ('"' :: rest) ShState.dq acc st =
      shGo rest ShState.norm acc st := by
  rw [shGo.eq_def]
  split
  all_goals try (simp_all [shlexWs]; done)
  all_goals
    (rename_i heq1 heq2
     injection heq1 with he1 he2
     subst he1
     subst he2
     simp [shlexWs])

theorem shGo_dq_bs_nil (acc : List Char) (st : Bool) :
    shGo ['\\'] ShState.dq acc st = Option.none := by
  rw [shGo.eq_def]
  split
  all_goals try (simp_all [shlexWs]; done)
  all_goals
    (rename_i heq1 heq2
     injection heq1 with he1 he2
     subst he1
     subst he2
     simp [shlexWs])

theorem shGo_dq_bs (d : Char) (r acc : List Char) (st : Bool) :
    shGo ('\\' :: d :: r) ShState.dq acc st =
      if d = '"' || d = '\\' then shGo r ShState.dq (d :: acc) st
      else shGo r ShState.dq (d :: '\\' :: acc) st := by
  rw [shGo.eq_def]
  split
  all_goals try (simp_all [shlexWs]; done)
  all_goals
    (rename_i heq1 heq2
     injection heq1 with he1 he2
     subst he1
     subst he2
     simp [shlexWs])

theorem shGo_nil_chars (p : Char → Prop) (st : ShState) (acc : List Char)
    (started : Bool) (toks : List (List Char))
    (hsome : shGo [] st acc started = some toks)
    (hacc : ∀ c ∈ acc, p c) :
    ∀ t ∈ toks, ∀ c ∈ t, p c := by
  intro t ht c hc
  cases st with
  | norm =>
    rw [shGo] at hsome
    by_cases hst : started = true
    · rw [hst] at hsome
      simp at hsome
      subst hsome
      simp at ht
      subst ht
      exact hacc c (by simpa using hc)
    · rw [Bool.not_eq_true] at hst
      rw [hst] at hsome
      simp at hsome
      subst hsome
      simp at ht
  | sq => rw [shGo] at hsome; cases hsome
  | dq => rw [shGo] at hsome; cases hsome

theorem shGo_tokens_chars (p : Char → Prop) : ∀ (n : Nat) (cs : List Char)
    (st : ShState) (acc : List Char) (started : Bool)
    (toks : List (List Char)), cs.length ≤ n →
    shGo cs st acc started = some toks →
    (∀ c ∈ cs, p c) → (∀ c ∈ acc, p c) →
    ∀ t ∈ toks, ∀ c ∈ t, p c := by
  intro n
  induction n with
  | zero =>
    intro cs st acc started toks hlen hsome hcs hacc t ht c hc
    have hnil : cs = [] := List.eq_nil_of_length_eq_zero (by omega)
    subst hnil
    exact shGo_nil_chars p st acc started toks hsome hacc t ht c hc
  | succ n ih =>
    intro cs st acc started toks hlen hsome hcs hacc t ht c hc
    cases cs with
    | nil =>
      exact shGo_nil_chars p st acc started toks hsome hacc t ht c hc
    | cons a rest =>
      have hrest : rest.length ≤ n := by simp at hlen; omega
      have ha : p a := hcs a (by simp)
      have hcs' : ∀ x ∈ rest, p x := fun x hx => hcs x (by simp [hx])
      have haccc : ∀ x ∈ a :: acc, p x := fun x hx => by
        rcases List.mem_cons.1 hx with h1 | h2
        · subst h1; exact ha
        · exact hacc x h2
      cases st with
      | norm =>
        by_cases hws : shlexWs a = true
        · by_cases hst : started = true
          · subst hst
            rw [(shGo_ws a rest acc hws).1] at hsome
            rcases Option.map_eq_some'.1 hsome with ⟨toks', hsp, htk⟩
            subst htk
            rcases List.mem_cons.1 ht with h1 | h2
            · subst h1; exact hacc c (by simpa using hc)
            · exact ih rest ShState.norm [] false toks' hrest hsp hcs'
                (by simp) t h2 c hc
          · rw [Bool.not_eq_true] at hst
            subst hst
            rw [(shGo_ws a rest acc hws).2] at hsome
            exact ih rest ShState.norm [] false toks hrest hsome hcs'
              (by simp) t ht c hc
        · by_cases hq : a = '\''
          · subst hq
            rw [shGo_norm_sq rest acc started] at hsome
            exact ih rest ShState.sq acc true toks hrest hsome hcs' hacc
              t ht c hc
          · by_cases hdq : a = '"'
            · subst hdq
              rw [shGo_norm_dq rest acc started] at hsome
              exact ih rest ShState.dq acc true toks hrest hsome hcs' hacc
                t ht c hc
            · by_cases hbs : a = '\\'
              · subst hbs
                cases rest with
                | nil => rw [shGo_norm_bs_nil acc started] at hsome; cases hsome
                | cons d r =>
                  rw [shGo_norm_bs d r acc started] at hsome
                  exact ih r ShState.norm (d :: acc) true toks
                    (by simp at hrest ⊢; omega) hsome
                    (fun x hx => hcs' x (by simp [hx]))
                    (fun x hx => by
                      rcases List.mem_cons.1 hx with h1 | h2
                      · subst h1; exact hcs' x (by simp)
                      · exact hacc x h2)
                    t ht c hc
              · have hplain : plainCh a = true := by
                  simp [plainCh, hws, hq, hdq, hbs]
                rw [shGo_norm_plain a rest acc started hplain] at hsome
                exact ih rest ShState.norm (a :: acc) true toks hrest hsome
                  hcs' haccc t ht c hc
      | sq =>
        by_cases hq : a = '\''
        · subst hq
          rw [shGo_sq_close rest acc started] at hsome
          exact ih rest ShState.norm acc started toks hrest hsome hcs' hacc
            t ht c hc
        · rw [shGo_sq_push a rest acc started hq] at hsome
          exact ih rest ShState.sq (a :: acc) started toks hrest hsome hcs'
            haccc t ht c hc
      | dq =>
        by_cases hq : a = '"'
        · subst hq
          rw [shGo_dq_close rest acc started] at hsome
          exact ih rest ShState.norm acc started toks hrest hsome hcs' hacc
            t ht c hc
        · by_cases hbs : a = '\\'
          · subst hbs
            cases rest with
            | nil => rw [shGo_dq_bs_nil acc started] at hsome; cases hsome
            | cons d r =>
              have hr : r.length ≤ n := by simp at hrest ⊢; omega
              have hd : p d := hcs' d (by simp)
              have hcs'' : ∀ x ∈ r, p x := fun x hx => hcs' x (by simp [hx])
              rw [shGo_dq_bs d r acc started] at hsome
              by_cases hdd : (d = '"' || d = '\\') = true
              · rw [if_pos hdd] at hsome
                exact ih r ShState.dq (d :: acc) started toks hr hsome hcs''
                  (fun x hx => by
                    rcases List.mem_cons.1 hx with h1 | h2
                    · subst h1; exact hd
                    · exact hacc x h2)
                  t ht c hc
              · rw [if_neg (by simpa using hdd)] at hsome
                exact ih r ShState.dq (d :: '\\' :: acc) started toks hr
                  hsome hcs''
                  (fun x hx => by
                    rcases List.mem_cons.1 hx with h1 | h2
                    · subst h1; exact hd
                    · rcases List.mem_cons.1 h2 with h3 | h4
                      · subst h3; exact ha
                      · exact hacc x h4)
                  t ht c hc
          · rw [shGo_dq_push a rest acc started hq hbs] at hsome
            exact ih rest ShState.dq (a :: acc) started toks hrest hsome hcs'
              haccc t ht c hc

theorem braceFree_iff (cs : List Char) :
    braceFree cs = true ↔ ∀ c ∈ cs, c ≠ '{' ∧ c ≠ '}' := by
  simp [braceFree, List.all_eq_true]

theorem mapM_vformat2_id : ∀ (toks : List (List Char)) (sh : Bool)
    (args : List Value), (∀ t ∈ toks, braceFree t = true) →
    toks.mapM (vformat2 sh args) = some toks := by
  intro toks
  induction toks with
  | nil => intro sh args _; rfl
  | cons t rest ih =>
    intro sh args h
    rw [List.mapM_cons, vformat2_braceFree sh args t (h t (by simp)),
      ih sh args (fun x hx => h x (by simp [hx]))]
    rfl

theorem option_some_bind {α β : Type} (a : α) (f : α → Option β) :
    (some a >>= f) = f a := rfl

/-- C9, amended.  A template with no fields and no brace characters
renders unchanged in shell mode; in vector mode it renders as its POSIX
word-split (quotes and escapes consumed by the splitter), whenever that
split succeeds.  (Templates whose only brace content is doubled braces do
not render unchanged: the first pass collapses them and the render then
fails, see C2.) -/
theorem c9_amended : ∀ s : String, braceFree s.data = true →
    (format_cmd s [] [] true = some (Cmd.sh s)) ∧
    (∀ ws : List String, shlexSplit s = some ws →
      format_cmd s [] [] false = some (Cmd.vec ws)) := by
  intro s hb
  have hp1 := pass1_braceFree (P1Mode.manual [] []) s hb
  constructor
  · rw [format_cmd, formatCmdWith, hp1]
    simp [vformat2_braceFree true [] s.data hb, strMk_data]
  · intro ws hws
    rw [shlexSplit] at hws
    rcases Option.map_eq_some'.1 hws with ⟨toks, htoks, hmap⟩
    subst hmap
    have htchar := shGo_tokens_chars (fun c => c ≠ '{' ∧ c ≠ '}')
      s.data.length s.data ShState.norm [] false toks le_rfl htoks
      ((braceFree_iff s.data).1 hb) (by simp)
    rw [format_cmd, formatCmdWith, hp1]
    simp only [option_some_bind, Bool.false_eq_true, if_false]
    rw [show shlexSplitCh s.data = some toks from htoks]
    simp only [option_some_bind]
    rw [mapM_vformat2_id toks false []
      (fun t ht => (braceFree_iff t).2 (htchar t ht))]
    rfl

theorem resolveAuto_name (name : List Char) (auto : Option Nat)
    (nm : List Char) (a' : Option Nat) (hne : name ≠ [])
    (h : resolveAuto name auto = some (nm, a')) : nm = name := by
  rw [resolveAuto.eq_def] at h
  rw [if_neg (by simpa using hne)] at h
  by_cases hd : name.all Char.isDigit = true
  · rw [if_pos hd] at h
    match auto, h with
    | some 0, h => injection h with h'; cases h'; rfl
    | Option.none, h => injection h with h'; cases h'; rfl
  · rw [if_neg hd] at h
    injection h with h'
    cases h'
    rfl

theorem simpleFormatField_args (args : List Value) (v : Value)
    (spec ph : List Char) (args' : List Value)
    (h : simpleFormatField args v spec = some (ph, args')) :
    args' = args ++ [v] := by
  rw [simpleFormatField] at h
  by_cases hl : spec = ['l']
  · rw [if_pos hl] at h
    rcases Option.map_eq_some'.1 h with ⟨n, _, hpair⟩
    injection hpair with h1 h2
    exact h2.symm
  · rw [if_neg hl] at h
    injection h with h'
    injection h' with h1 h2
    exact h2.symm

theorem renderItems1_eval_order (ev : Nat → String → Value) :
    ∀ (its : List Item) (out : List Char) (st : St1)
    (res : List Char × St1),
    renderItems1 (P1Mode.eval ev) its out st = some res →
    (∀ f ∈ itemFields its, f.name ≠ [] ∧ f.conv = Option.none) →
    res.2.tick = st.tick + (itemFields its).length ∧
    res.2.args = st.args ++ evalTrace ev st.tick (itemFields its) := by
  intro its
  induction its with
  | nil =>
    intro out st res hsome _
    rw [renderItems1] at hsome
    injection hsome with h'
    subst h'
    simp [itemFields, evalTrace]
  | cons it its ih =>
    obtain ⟨lit, fld⟩ := it
    intro out st res hsome hf
    cases fld with
    | none =>
      rw [renderItems1] at hsome
      have := ih (out ++ lit) st res hsome
        (fun f hmem => hf f (by simpa [itemFields] using hmem))
      simpa [itemFields] using this
    | some f =>
      have hfname := hf f (by simp [itemFields])
      rw [renderItems1] at hsome
      dsimp only at hsome
      cases hra : resolveAuto f.name st.auto with
      | none =>
        rw [hra] at hsome
        exact Option.noConfusion hsome
      | some pr =>
        obtain ⟨nm, a'⟩ := pr
        rw [hra, hfname.2] at hsome
        dsimp only [option_some_bind, getField1, convertField] at hsome
        cases hsf : simpleFormatField st.args (ev st.tick ⟨nm⟩) f.spec with
        | none =>
          rw [hsf] at hsome
          exact Option.noConfusion hsome
        | some pr2 =>
          obtain ⟨ph, args'⟩ := pr2
          rw [hsf] at hsome
          have hrec : renderItems1 (P1Mode.eval ev) its (out ++ lit ++ ph)
              ⟨args', a', st.tick + 1⟩ = some res := hsome
          have hargs := simpleFormatField_args st.args _ f.spec ph args' hsf
          subst hargs
          have hnm := resolveAuto_name f.name st.auto nm a' hfname.1 hra
          subst hnm
          have hr := ih (out ++ lit ++ ph)
            ⟨st.args ++ [ev st.tick ⟨f.name⟩], a', st.tick + 1⟩ res hrec
            (fun g hmem => hf g (by simpa [itemFields] using Or.inr hmem))
          constructor
          · have h1 := hr.1
            simp only [itemFields, List.filterMap_cons] at h1 ⊢
            simp at h1 ⊢
            omega
          · have h2 := hr.2
            simp only [itemFields, List.filterMap_cons] at h2 ⊢
            rw [h2, evalTrace]
            simp

theorem pGo_name_digits : ∀ (ds rest la na : List Char),
    (∀ c ∈ ds, c.isDigit = true) →
    pGo (ds ++ rest) (PState.name la na true) =
      pGo rest (PState.name la (ds.reverse ++ na) true) := by
  intro ds
  induction ds with
  | nil => intro rest la na _; simp
  | cons d ds ih =>
    intro rest la na h
    have hd : d.isDigit = true := h d (by simp)
    rw [List.cons_append,
      pGo_name_push d (ds ++ rest) la na
        (isDigit_ne d '{' hd (by decide)) (isDigit_ne d ']' hd (by decide)),
      ih rest la (d :: na) (fun c hc => h c (by simp [hc]))]
    simp

theorem fnGo_idx_push (c : Char) (rest acc : List Char) (h : c ≠ ']') :
    fnGo (c :: rest) (FnState.idx acc) =
      fnGo rest (FnState.idx (c :: acc)) := by
  rw [fnGo.eq_def]
  split <;> simp_all

theorem fnGo_idx_digits : ∀ (ds rest acc : List Char),
    (∀ c ∈ ds, c.isDigit = true) →
    fnGo (ds ++ rest) (FnState.idx acc) =
      fnGo rest (FnState.idx (ds.reverse ++ acc)) := by
  intro ds
  induction ds with
  | nil => intro rest acc _; simp
  | cons d ds ih =>
    intro rest acc h
    have hd : d.isDigit = true := h d (by simp)
    rw [List.cons_append,
      fnGo_idx_push d (ds ++ rest) acc (isDigit_ne d ']' hd (by decide)),
      ih rest (d :: acc) (fun c hc => h c (by simp [hc]))]
    simp

theorem digit_plain (c : Char) (h : c.isDigit = true) : plainCh c = true := by
  have h1 := isDigit_ne c ' ' h (by decide)
  have h2 := isDigit_ne c '\t' h (by decide)
  have h3 := isDigit_ne c '\x0d' h (by decide)
  have h4 := isDigit_ne c '\n' h (by decide)
  have h5 := isDigit_ne c '\'' h (by decide)
  have h6 := isDigit_ne c '"' h (by decide)
  have h7 := isDigit_ne c '\\' h (by decide)
  simp [plainCh, shlexWs, h1, h2, h3, h4, h5, h6, h7]

theorem mapM_map_some {α β γ : Type} (l : List α) (g : α → β)
    (f : β → Option γ) (out : α → γ)
    (h : ∀ a ∈ l, f (g a) = some (out a)) :
    (l.map g).mapM f = some (l.map out) := by
  induction l with
  | nil => rfl
  | cons a l ih =>
    rw [List.map_cons, List.mapM_cons, h a (by simp),
      ih (fun x hx => h x (by simp [hx]))]
    rfl

theorem parseFmt_list_ph (i : Nat) :
    parseFmt ('{' :: '0' :: '[' :: natRepr i ++ [']', '}']) =
      some [⟨[], some ⟨'0' :: '[' :: (natRepr i ++ [']']), Option.none, []⟩⟩,
        ⟨[], Option.none⟩] := by
  have h1 : parseFmt ('{' :: '0' :: '[' :: natRepr i ++ [']', '}']) =
      pGo (natRepr i ++ [']', '}']) (PState.name [] ['[', '0'] true) := rfl
  rw [h1, pGo_name_digits (natRepr i) [']', '}'] [] ['[', '0']
    (natRepr_digits i)]
  rw [show pGo [']', '}']
      (PState.name [] ((natRepr i).reverse ++ ['[', '0']) true) =
    some [⟨[], some ⟨(']' :: ((natRepr i).reverse ++ ['[', '0'])).reverse,
      Option.none, []⟩⟩, ⟨[], Option.none⟩] from rfl]
  simp

theorem fnGo_idx_close (rest acc : List Char) :
    fnGo (']' :: rest) (FnState.idx acc) =
      (fnGo rest FnState.delim).map (Chunk.idx (mkKey acc.reverse) :: ·) := by
  rw [fnGo.eq_def]
  split
  all_goals try (simp_all; done)
  all_goals
    (rename_i heq1 heq2
     injection heq1 with he1 he2
     injection heq2 with he3
     subst he1
     subst he2
     subst he3
     simp)

theorem fnGo_digits_close (i : Nat) :
    fnGo (natRepr i ++ [']']) (FnState.idx []) =
      some [Chunk.idx (FKey.num i)] := by
  rw [fnGo_idx_digits (natRepr i) [']'] [] (natRepr_digits i),
    fnGo_idx_close [] ((natRepr i).reverse ++ [])]
  simp [mkKey, decDigits_natRepr i, fnGo]

theorem getFieldResolve_list_idx (xs : List Value) (i : Nat)
    (h : i < xs.length) :
    getFieldResolve [Value.list xs] []
      ('0' :: '[' :: (natRepr i ++ [']'])) =
      some (xs.getD i Value.none) := by
  rw [getFieldResolve]
  rw [show fieldNameSplit ('0' :: '[' :: (natRepr i ++ [']'])) =
    (fnGo (natRepr i ++ [']']) (FnState.idx [])).map
      (fun chunks => (mkKey ['0'], chunks)) from rfl]
  rw [fnGo_digits_close i]
  rw [show (mkKey ['0'] : FKey) = FKey.num 0 from rfl]
  dsimp only [option_some_bind, Option.map_some']
  rw [show (do
      let v0 ← getValue [Value.list xs] [] (FKey.num 0)
      List.foldlM pyChunk v0 [Chunk.idx (FKey.num i)] : Option Value) =
    xs.get? i >>= fun v => some v from rfl]
  rw [List.get?_eq_getElem?, List.getElem?_eq_getElem h]
  rw [option_some_bind]
  rw [List.getD_eq_getElem xs Value.none h]

theorem vformat2_list_token (xs : List Value) (i : Nat)
    (h : i < xs.length) :
    vformat2 false [Value.list xs]
      ('{' :: '0' :: '[' :: natRepr i ++ [']', '}']) =
      some (strCoerce (xs.getD i Value.none)).data := by
  rw [vformat2, parseFmt_list_ph i]
  dsimp only [Option.bind]
  rw [renderItems2]
  dsimp only
  rw [show resolveAuto ('0' :: '[' :: (natRepr i ++ [']'])) (some 0) =
    some (('0' :: '[' :: (natRepr i ++ [']']), some 0)) from rfl]
  dsimp only [option_some_bind]
  rw [getFieldResolve_list_idx xs i h]
  dsimp only [option_some_bind, convertField]
  rw [show sqFormatField false (xs.getD i Value.none) [] =
    some (strCoerce (xs.getD i Value.none)) from rfl]
  dsimp only [option_some_bind]
  rw [renderItems2, renderItems2]
  simp

/-- C1, counterexample.  The claim says vector-mode rendering splits the
fully-substituted string and then escapes each word.  On the template
"a {x}" with x = "a b", the code instead yields the two tokens "a" and
"a b" (the value was substituted after splitting, unescaped), while the
claimed split-then-escape rendering yields three words "a", "a", "b". -/
theorem c1_counterexample :
    format_cmd "a {x}" [] [("x", Value.str "a b")] false =
      some (Cmd.vec ["a", "a b"]) ∧
    specVectorRender "a {x}" [] [("x", Value.str "a b")] =
      some ["a", "a", "b"] ∧
    Cmd.vec ["a", "a b"] ≠ Cmd.vec ["a", "a", "b"] :=
  ⟨rfl, rfl, by decide⟩

/-- C1, amended.  In vector mode the indexed template is split into POSIX
words before the values are substituted, and each word's fields are then
filled with the plain, unescaped text of their values: a field occupying a
whole word yields exactly one argument token equal to the value's text,
however many spaces, quotes or metacharacters the value holds. -/
theorem c1_amended :
    ∀ s : String,
      format_cmd "a {x}" [] [("x", Value.str s)] false =
        some (Cmd.vec ["a", s]) ∧
      format_cmd "{x}" [] [("x", Value.str s)] false =
        some (Cmd.vec [s]) := by
  intro s
  obtain ⟨l⟩ := s
  have h1 : format_cmd "a {x}" [] [("x", Value.str ⟨l⟩)] false =
      some (Cmd.vec ["a", ⟨l ++ []⟩]) := rfl
  have h2 : format_cmd "{x}" [] [("x", Value.str ⟨l⟩)] false =
      some (Cmd.vec [⟨l ++ []⟩]) := rfl
  rw [h1, h2]
  simp

/-- C2, code bug.  The claim (and the repository's own
test_escaped_curly_braces) wants doubled braces to pass through the first
pass untouched and become literal braces in the second.  In the code the
first pass already collapses them — pass1 of the test's template yields
text holding a single-braced "{curly}" with no recorded values — and the
render then fails in both modes (the second pass reads "{curly}" as a
replacement field and raises a KeyError, modelled as none). -/
theorem c2_brace_collapse :
    pass1 (P1Mode.manual [] []) "printf \"[%s]\" \"{{curly}}\"" =
      some (("printf \"[%s]\" \"{curly}\"").data,
        { args := [], auto := some 0, tick := 0 }) ∧
    format_cmd "printf \"[%s]\" \"{{curly}}\"" [] [] false = none ∧
    format_cmd "printf \"[%s]\" \"{{curly}}\"" [] [] true = none :=
  ⟨rfl, rfl, rfl⟩

/-- C3, counterexample.  The claim says an unknown directive character
fails construction with a MalformedTemplateError.  The code has no such
error: the template "{x:z}" with x = "a b" constructs successfully in both
modes, and in shell mode the unknown directive is silently escaped exactly
like the default directive. -/
theorem c3_counterexample :
    format_cmd "{x:z}" [] [("x", Value.str "a b")] true =
      some (Cmd.sh "'a b'") ∧
    format_cmd "{x:z}" [] [("x", Value.str "a b")] false =
      some (Cmd.vec ["a b"]) :=
  ⟨rfl, rfl⟩

/-- C3, amended.  An unknown directive character is accepted without any
error and coerced to the default treatment: in shell mode the field's
text is shell-quoted exactly as with no directive, in vector mode it is
inserted as plain text. -/
theorem c3_amended :
    ∀ (spec : List Char) (v : Value), spec ≠ ['r'] → spec ≠ ['l'] →
      sqFormatField true v spec = some (shlexQuote (strCoerce v)) ∧
      sqFormatField false v spec = some (strCoerce v) := by
  intro spec v hr hl
  constructor
  · simp [sqFormatField, hr, hl]
  · simp [sqFormatField]

/-- Witness for the amended C3 at the concrete directive z and value
"a b". -/
theorem c3_witness :
    sqFormatField true (Value.str "a b") ['z'] =
      some (shlexQuote (strCoerce (Value.str "a b"))) ∧
    sqFormatField false (Value.str "a b") ['z'] =
      some (strCoerce (Value.str "a b")) :=
  c3_amended ['z'] (Value.str "a b") (by decide) (by decide)

/-- C6.  In vector mode the raw directive has no effect: the field-level
formatter treats the r spec exactly like the empty spec for every value,
and the whole pipeline renders a template with an r field identically to
the same template with a plain field — the value receives exactly the
treatment (none at all, in vector mode) of a directive-free field. -/
theorem c6_raw_noop :
    ∀ v : Value,
      sqFormatField false v ['r'] = sqFormatField false v [] ∧
      format_cmd "{x:r}" [] [("x", v)] false =
        format_cmd "{x}" [] [("x", v)] false :=
  fun _ => ⟨rfl, rfl⟩

/-- C7, counterexample.  The claim says a None field renders to empty
text under the default directive in shell mode too; there it actually
renders as the two-character shell-quoted empty string. -/
theorem c7_counterexample :
    sqFormatField true Value.none [] = some "''" ∧ ("''" : String) ≠ "" :=
  ⟨rfl, by decide⟩

/-- C7, amended.  A None value coerces to empty text (never the text
"None"): in vector mode, under every directive, and under shell-raw the
field renders as empty text; under the shell default it renders as the
shell quotation of empty text, the two characters of an empty
single-quoted string; and the list directive rejects a value with no
length — None or a number — at construction time in both modes. -/
theorem c7_amended :
    (∀ spec : List Char, sqFormatField false Value.none spec = some "") ∧
    sqFormatField true Value.none ['r'] = some "" ∧
    sqFormatField true Value.none [] = some (shlexQuote "") ∧
    shlexQuote "" = "''" ∧
    strCoerce Value.none = "" ∧
    format_cmd "{x}" [] [("x", Value.none)] false = some (Cmd.vec [""]) ∧
    format_cmd "{x}" [] [("x", Value.none)] true = some (Cmd.sh "''") ∧
    format_cmd "{x:l}" [] [("x", Value.none)] false = none ∧
    format_cmd "{x:l}" [] [("x", Value.none)] true = none ∧
    format_cmd "{x:l}" [] [("x", Value.int 3)] false = none :=
  ⟨fun _ => rfl, rfl, rfl, rfl, rfl, rfl, rfl, rfl, rfl, rfl⟩

/-- C8.  run never raises on a nonzero exit code by itself (it passes no
check flag, so the collaborator's default applies); call raises
CalledProcessError — the spec's NonZeroExitError — exactly on a nonzero
exit code, unless checking is disabled for that call. -/
theorem c8_run_call :
    (∀ rc : Int, CmdObject.run rc = RunResult.ok rc) ∧
    (∀ rc : Int, rc ≠ 0 →
      CmdObject.call rc = RunResult.calledProcessError rc) ∧
    CmdObject.call 0 = RunResult.ok 0 ∧
    (∀ rc : Int, CmdObject.call rc false = RunResult.ok rc) := by
  refine ⟨fun rc => rfl, fun rc h => ?_, rfl, fun rc => rfl⟩
  simp [CmdObject.call, subprocessRun, h]

/-- Witness for C8 at exit code 7. -/
theorem c8_witness :
    CmdObject.run 7 = RunResult.ok 7 ∧
    CmdObject.call 7 = RunResult.calledProcessError 7 ∧
    CmdObject.call 7 false = RunResult.ok 7 :=
  ⟨c8_run_call.1 7, c8_run_call.2.1 7 (by decide), c8_run_call.2.2.2 7⟩

/-- C9, counterexample.  The claim says render returns a no-field template
unchanged (modulo un-escaping doubled braces) in both modes.  In shell
mode a doubled-brace template errors instead of un-escaping, and in vector
mode the representation is the word-split of the template, which consumes
quoting rather than leaving the text unchanged. -/
theorem c9_counterexample :
    format_cmd "p {{q}}" [] [] true = none ∧
    format_cmd "\"x y\" z" [] [] false = some (Cmd.vec ["x y", "z"]) ∧
    ("x y" : String) ≠ "\"x y\"" :=
  ⟨rfl, rfl, by decide⟩

/-- Witness for the amended C9 at a concrete brace-free template. -/
theorem c9_witness :
    format_cmd "ls -la /tmp" [] [] true = some (Cmd.sh "ls -la /tmp") ∧
    format_cmd "ls -la /tmp" [] [] false =
      some (Cmd.vec ["ls", "-la", "/tmp"]) :=
  ⟨(c9_amended "ls -la /tmp" (by decide)).1,
   (c9_amended "ls -la /tmp" (by decide)).2 ["ls", "-la", "/tmp"] rfl⟩

/-- C4.  Fields are evaluated in left-to-right template order, one
Expression Evaluator invocation per occurrence with no memoization: a
successful recording pass appends exactly the evaluation trace (one value
per field, at consecutive ticks) to the recorded values.  In particular on
the template with fields a, b, a the evaluator runs for a at tick 0, b at
tick 1 and a again at tick 2, whatever values it returns. -/
theorem c4_eval_order :
    (∀ (ev : Nat → String → Value) (its : List Item) (out : List Char)
      (st : St1) (res : List Char × St1),
      renderItems1 (P1Mode.eval ev) its out st = some res →
      (∀ f ∈ itemFields its, f.name ≠ [] ∧ f.conv = Option.none) →
      res.2.tick = st.tick + (itemFields its).length ∧
      res.2.args = st.args ++ evalTrace ev st.tick (itemFields its)) ∧
    (∀ ev : Nat → String → Value,
      pass1 (P1Mode.eval ev) "{a}{b}{a}" =
        some ("{0:}{1:}{2:}".data,
          ⟨[ev 0 "a", ev 1 "b", ev 2 "a"], some 0, 3⟩)) :=
  ⟨fun ev => renderItems1_eval_order ev, fun _ => rfl⟩

/-- Witness for C4 at a concrete evaluator and the a, b, a template. -/
theorem c4_eval_order_witness :
    ((("{0:}{1:}{2:}").data,
      (⟨[Value.int 0, Value.int 1, Value.int 2], some 0, 3⟩ : St1)).2).tick =
      (⟨[], some 0, 0⟩ : St1).tick +
      (itemFields [⟨[], some ⟨['a'], Option.none, []⟩⟩,
        ⟨[], some ⟨['b'], Option.none, []⟩⟩,
        ⟨[], some ⟨['a'], Option.none, []⟩⟩, ⟨[], Option.none⟩]).length ∧
    ((("{0:}{1:}{2:}").data,
      (⟨[Value.int 0, Value.int 1, Value.int 2], some 0, 3⟩ : St1)).2).args =
      (⟨[], some 0, 0⟩ : St1).args ++
      evalTrace (fun t _ => Value.int t) (⟨[], some 0, 0⟩ : St1).tick
        (itemFields [⟨[], some ⟨['a'], Option.none, []⟩⟩,
          ⟨[], some ⟨['b'], Option.none, []⟩⟩,
          ⟨[], some ⟨['a'], Option.none, []⟩⟩, ⟨[], Option.none⟩]) :=
  c4_eval_order.1 (fun t _ => Value.int t)
    [⟨[], some ⟨['a'], Option.none, []⟩⟩, ⟨[], some ⟨['b'], Option.none, []⟩⟩,
     ⟨[], some ⟨['a'], Option.none, []⟩⟩, ⟨[], Option.none⟩]
    [] ⟨[], some 0, 0⟩
    (("{0:}{1:}{2:}").data,
      ⟨[Value.int 0, Value.int 1, Value.int 2], some 0, 3⟩)
    rfl (by decide)

/-- C5, counterexample.  The claim says the i-th token is the escaped text
of the i-th element.  The element "a b" yields the token "a b" verbatim;
its escaped text would be the quoted form, which differs. -/
theorem c5_counterexample :
    format_cmd "{x:l}" [] [("x", Value.list [Value.str "a b"])] false =
      some (Cmd.vec ["a b"]) ∧
    shlexQuote "a b" = "'a b'" ∧ ("a b" : String) ≠ "'a b'" :=
  ⟨rfl, rfl, by decide⟩

/-- C5, amended.  A list-directive field in vector mode produces exactly
one argument token per element of the sequence, the i-th equal to the
plain (unescaped) text of the i-th element, with None elements rendering
as empty text. -/
theorem c5_amended : ∀ xs : List Value,
    format_cmd "{x:l}" [] [("x", Value.list xs)] false =
      some (Cmd.vec (xs.map strCoerce)) ∧
    (xs.map strCoerce).length = xs.length := by
  intro xs
  refine ⟨?_, by simp⟩
  have hp1 : pass1 (P1Mode.manual [] [("x", Value.list xs)]) "{x:l}" =
      some ((List.intercalate [' ']
        ((List.range xs.length).map
          (fun i => '{' :: '0' :: '[' :: natRepr i ++ [']', '}']))) ++ [],
        ⟨[Value.list xs], some 0, 0⟩) := rfl
  rw [format_cmd, formatCmdWith, hp1]
  dsimp only [option_some_bind]
  simp only [Bool.false_eq_true, if_false]
  rw [List.append_nil]
  have hsplit : shlexSplitCh (List.intercalate [' ']
      ((List.range xs.length).map
        (fun i => '{' :: '0' :: '[' :: natRepr i ++ [']', '}']))) =
      some ((List.range xs.length).map
        (fun i => '{' :: '0' :: '[' :: natRepr i ++ [']', '}'])) := by
    apply shlex_plain_words
    intro w hw
    rcases List.mem_map.1 hw with ⟨i, _, hphw⟩
    subst hphw
    refine ⟨by simp, fun c hc => ?_⟩
    rcases List.mem_cons.1 hc with h | hc
    · subst h; decide
    rcases List.mem_cons.1 hc with h | hc
    · subst h; decide
    rcases List.mem_cons.1 hc with h | hc
    · subst h; decide
    rcases List.mem_append.1 hc with h | h
    · exact digit_plain c (natRepr_digits i c h)
    · rcases List.mem_cons.1 h with h2 | h2
      · subst h2; decide
      · rcases List.mem_cons.1 h2 with h3 | h3
        · subst h3; decide
        · cases h3
  rw [hsplit]
  dsimp only [option_some_bind]
  rw [mapM_map_some (List.range xs.length)
    (fun i => '{' :: '0' :: '[' :: natRepr i ++ [']', '}'])
    (vformat2 false [Value.list xs])
    (fun i => (strCoerce (xs.getD i Value.none)).data)
    (fun i hi => vformat2_list_token xs i (List.mem_range.1 hi))]
  dsimp only [option_some_bind]
  have hmaps : ((List.range xs.length).map
      (fun i => (strCoerce (xs.getD i Value.none)).data)).map String.mk =
      xs.map strCoerce := by
    rw [List.map_map]
    apply List.ext_getElem
    · simp
    · intro n h1 h2
      simp only [List.getElem_map, List.getElem_range, Function.comp]
      rw [strMk_data, List.getD_eq_getElem xs Value.none (by simpa using h1)]
  rw [hmaps]
  rfl

/-- C10.  Every falsy command part is dropped before the template is
formed; the surviving parts are converted to text and joined with single
spaces; and fields are evaluated only after the join, in the joined
template's left-to-right order — so a part such as a guard expression that
is false contributes nothing. -/
theorem c10_falsy_join :
    (∀ (pre post : List Value) (x : Value), pyTruthy x = false →
      joinCmd (pre ++ x :: post) = joinCmd (pre ++ post)) ∧
    joinCmd [Value.str "printf", Value.bool false, Value.str "--flag",
      Value.none, Value.int 7] = "printf --flag 7" ∧
    (∀ ev : Nat → String → Value,
      cmd [Value.str "{a}", Value.bool false, Value.str "{b}"] ev false =
        some (Cmd.vec [strCoerce (ev 0 "a"), strCoerce (ev 1 "b")])) := by
  refine ⟨fun pre post x h => ?_, rfl, fun ev => ?_⟩
  · simp [joinCmd, List.filter_append, List.filter_cons, h]
  · have h1 : cmd [Value.str "{a}", Value.bool false, Value.str "{b}"] ev
        false = some (Cmd.vec [⟨(strCoerce (ev 0 "a")).data ++ []⟩,
          ⟨(strCoerce (ev 1 "b")).data ++ []⟩]) := rfl
    rw [h1]
    simp [strMk_data]

/-- Witness for C10 at a concrete falsy part. -/
theorem c10_falsy_join_witness :
    joinCmd ([Value.str "echo"] ++ Value.bool false :: [Value.str "hi"]) =
      joinCmd ([Value.str "echo"] ++ [Value.str "hi"]) :=
  c10_falsy_join.1 [Value.str "echo"] [Value.str "hi"] (Value.bool false) rfl
